import Mathlib

/-!
Verification of the coordextract pipeline (mgrs-processing).

The embedding follows the two source files:
- coordextract/factory/gpx_model_builder.py : the point assembler
  process_gpx_to_point_models;
- coordextract/cli.py : the batch orchestrator (process, process_batch,
  process_directory, main).

The external collaborators (GPX parsing, the lat/lon to MGRS converter,
JSON serialization) are not part of the two source files; they are taken
as parameters or modelled from the specification where a claim needs them.
-/

namespace Coordextract

/-- Raw coordinate value as handed to the assembler by the parser.
Modelled from the spec: the parser (coordextract.parsers, not under src)
yields per-coordinate float fields where a non-numeric (malformed) source
field is represented by the floating-point NaN sentinel (spec section 9,
design note on the NaN sentinel).  We model a coordinate as either a
genuine number (a rational standing for the finite float) or the NaN
sentinel. -/
inductive RawVal where
  | num (q : ℚ)
  | nan
deriving DecidableEq, Repr

/-- Embedding of math.isnan applied to a RawVal. -/
def RawVal.isnan : RawVal → Bool
  | .num _ => false
  | .nan => true

/-- Embedding of coordextract.models.point.PointModel as constructed by
process_gpx_to_point_models (fields name, gpxpoint, latitude, longitude,
mgrs). -/
structure PointModel where
  name : Option String
  gpxpoint : String
  latitude : ℚ
  longitude : ℚ
  mgrs : String
deriving DecidableEq, Repr

/-- One diagnostic record emitted by logging.error in the skip branch of
process_gpx_to_point_models; it carries the two raw values that were
interpolated into the log message. -/
structure LogRecord where
  latRaw : RawVal
  lonRaw : RawVal
deriving DecidableEq, Repr

/-- Embedding of the body of the inner loop of process_gpx_to_point_models
(gpx_model_builder.py lines 50-67): the accumulator holds the
point_models list and the list of diagnostic records emitted so far; each
pair either appends one PointModel (valid case, mgrs computed by the
converter from the pair itself) or appends one LogRecord (NaN case,
the continue branch). -/
def processPair (latlon_to_mgrs : ℚ → ℚ → String) (point_type : String)
    (acc : List PointModel × List LogRecord) (p : RawVal × RawVal) :
    List PointModel × List LogRecord :=
  if p.1.isnan || p.2.isnan then
    (acc.1, acc.2 ++ [⟨p.1, p.2⟩])
  else
    match p with
    | (RawVal.num la, RawVal.num lo) =>
        (acc.1 ++ [⟨none, point_type, la, lo, latlon_to_mgrs la lo⟩], acc.2)
    | _ => (acc.1, acc.2)

/-- Embedding of process_gpx_to_point_models (gpx_model_builder.py lines
43-68).  The parser result is the triple of categorized pair lists; the
points_with_types dict literal enumerates, in insertion order, waypoint,
trackpoint, routepoint, and the two nested loops fold processPair over
every pair.  The function returns the accumulated point_models list
together with the emitted diagnostic records. -/
def process_gpx_to_point_models (latlon_to_mgrs : ℚ → ℚ → String)
    (waypoints trackpoints routepoints : List (RawVal × RawVal)) :
    List PointModel × List LogRecord :=
  let points_with_types : List (String × List (RawVal × RawVal)) :=
    [("waypoint", waypoints), ("trackpoint", trackpoints),
      ("routepoint", routepoints)]
  points_with_types.foldl
    (fun acc pts => pts.2.foldl (processPair latlon_to_mgrs pts.1) acc)
    ([], [])

/-- Specification-side view of one valid pair: the PointModel the
assembler builds for it, or none when the pair is skipped. -/
def validModel (latlon_to_mgrs : ℚ → ℚ → String) (point_type : String) :
    RawVal × RawVal → Option PointModel
  | (RawVal.num la, RawVal.num lo) =>
      some ⟨none, point_type, la, lo, latlon_to_mgrs la lo⟩
  | _ => none

/-- Specification-side view of invalidity: either component is NaN. -/
def invalidPair (p : RawVal × RawVal) : Bool :=
  p.1.isnan || p.2.isnan

theorem isnan_false_iff (v : RawVal) :
    v.isnan = false ↔ ∃ q, v = RawVal.num q := by
  cases v <;> simp [RawVal.isnan]

theorem processPair_eq (conv : ℚ → ℚ → String) (pt : String)
    (acc : List PointModel × List LogRecord) (p : RawVal × RawVal) :
    processPair conv pt acc p =
      (acc.1 ++ (validModel conv pt p).toList,
        acc.2 ++ if invalidPair p then [⟨p.1, p.2⟩] else []) := by
  rcases p with ⟨la, lo⟩
  cases la <;> cases lo <;>
    simp [processPair, validModel, invalidPair, RawVal.isnan]

theorem foldl_processPair (conv : ℚ → ℚ → String) (pt : String)
    (points : List (RawVal × RawVal))
    (acc : List PointModel × List LogRecord) :
    points.foldl (processPair conv pt) acc =
      (acc.1 ++ points.filterMap (validModel conv pt),
        acc.2 ++ (points.filter invalidPair).map (fun p => ⟨p.1, p.2⟩)) := by
  induction points generalizing acc with
  | nil => simp
  | cons p rest ih =>
      rw [List.foldl_cons, ih, processPair_eq]
      rcases hv : validModel conv pt p with _ | m <;>
        rcases hi : invalidPair p with _ | _ <;>
          simp [List.filterMap_cons, List.filter_cons, hv, hi]

theorem process_gpx_eq (conv : ℚ → ℚ → String)
    (w t r : List (RawVal × RawVal)) :
    process_gpx_to_point_models conv w t r =
      (w.filterMap (validModel conv "waypoint") ++
         t.filterMap (validModel conv "trackpoint") ++
         r.filterMap (validModel conv "routepoint"),
       ((w.filter invalidPair).map (fun p => ⟨p.1, p.2⟩) ++
          (t.filter invalidPair).map (fun p => ⟨p.1, p.2⟩) ++
          (r.filter invalidPair).map (fun p => ⟨p.1, p.2⟩) :
            List LogRecord)) := by
  simp [process_gpx_to_point_models, List.foldl_cons, foldl_processPair,
    List.append_assoc]

/-- C1: for every parsed input, the assembled output of
process_gpx_to_point_models is exactly the waypoint records, then the
trackpoint records, then the routepoint records, where each category's
records are the order-preserving image (filterMap) of that category's
input pairs — so all waypoints come first, then all trackpoints, then all
routepoints, each in original input order. -/
theorem c1_output_ordering (conv : ℚ → ℚ → String)
    (w t r : List (RawVal × RawVal)) :
    (process_gpx_to_point_models conv w t r).1 =
      w.filterMap (validModel conv "waypoint") ++
        t.filterMap (validModel conv "trackpoint") ++
        r.filterMap (validModel conv "routepoint") := by
  rw [process_gpx_eq]

/-- C2: for every coordinate pair with a NaN component (the
representation the parser gives a non-numeric field), the assembler
excludes the pair from its output and emits exactly one diagnostic record
for it — the diagnostics are precisely the invalid pairs of the three
categories, one record per invalid occurrence, in order — while the
output still contains every valid pair's record (the filterMap of the
input); the function is total, so invalidity never surfaces as an error
to the caller. -/
theorem c2_skip_log_continue (conv : ℚ → ℚ → String)
    (w t r : List (RawVal × RawVal)) :
    (process_gpx_to_point_models conv w t r).2 =
        ((w.filter invalidPair).map (fun p => ⟨p.1, p.2⟩) ++
          (t.filter invalidPair).map (fun p => ⟨p.1, p.2⟩) ++
          (r.filter invalidPair).map (fun p => (⟨p.1, p.2⟩ : LogRecord))) ∧
      (process_gpx_to_point_models conv w t r).1 =
        w.filterMap (validModel conv "waypoint") ++
          t.filterMap (validModel conv "trackpoint") ++
          r.filterMap (validModel conv "routepoint") := by
  rw [process_gpx_eq]
  exact ⟨rfl, rfl⟩

theorem mem_filterMap_validModel {conv : ℚ → ℚ → String} {pt : String}
    {points : List (RawVal × RawVal)} {pm : PointModel}
    (h : pm ∈ points.filterMap (validModel conv pt)) :
    pm.mgrs = conv pm.latitude pm.longitude := by
  rcases List.mem_filterMap.mp h with ⟨p, _, hp⟩
  rcases p with ⟨la, lo⟩
  cases la <;> cases lo <;> simp [validModel] at hp
  rw [← hp]

/-- C3: every PointModel in the output of process_gpx_to_point_models
stores as its mgrs field exactly the converter applied to that same
record's own latitude and longitude fields. -/
theorem c3_mgrs_from_own_latlon (conv : ℚ → ℚ → String)
    (w t r : List (RawVal × RawVal)) (pm : PointModel)
    (h : pm ∈ (process_gpx_to_point_models conv w t r).1) :
    pm.mgrs = conv pm.latitude pm.longitude := by
  rw [process_gpx_eq] at h
  simp only [List.mem_append] at h
  rcases h with (h | h) | h <;> exact mem_filterMap_validModel h

/-- Witness for C3 at a concrete input: one valid waypoint at (1, 2) with
a concrete converter. -/
theorem c3_witness :
    (⟨none, "waypoint", 1, 2, "Z12"⟩ : PointModel).mgrs =
      (fun _ _ => "Z12" : ℚ → ℚ → String)
        (⟨none, "waypoint", 1, 2, "Z12"⟩ : PointModel).latitude
        (⟨none, "waypoint", 1, 2, "Z12"⟩ : PointModel).longitude :=
  c3_mgrs_from_own_latlon (fun _ _ => "Z12")
    [(RawVal.num 1, RawVal.num 2)] [] [] ⟨none, "waypoint", 1, 2, "Z12"⟩
    (by rw [process_gpx_eq]; simp [validModel])

/-- C8: when every pair in the input is invalid (each has a NaN
component), the assembler returns the empty list of point models
normally; in the embedding the function is total, so the empty result is
an ordinary return value, not an error. -/
theorem c8_all_invalid_empty (conv : ℚ → ℚ → String)
    (w t r : List (RawVal × RawVal))
    (h : ∀ p ∈ w ++ t ++ r, invalidPair p = true) :
    (process_gpx_to_point_models conv w t r).1 = [] := by
  rw [process_gpx_eq]
  have hnone : ∀ (pt : String) (points : List (RawVal × RawVal)),
      (∀ p ∈ points, invalidPair p = true) →
      points.filterMap (validModel conv pt) = [] := by
    intro pt points hp
    rw [List.filterMap_eq_nil_iff]
    intro p hmem
    have := hp p hmem
    rcases p with ⟨la, lo⟩
    cases la <;> cases lo <;>
      simp_all [invalidPair, RawVal.isnan, validModel]
  have hw : ∀ p ∈ w, invalidPair p = true := fun p hp => h p (by simp [hp])
  have ht : ∀ p ∈ t, invalidPair p = true := fun p hp => h p (by simp [hp])
  have hr : ∀ p ∈ r, invalidPair p = true := fun p hp => h p (by simp [hp])
  rw [hnone _ w hw, hnone _ t ht, hnone _ r hr]
  simp

/-- Witness for C8: an input whose only pair is (NaN, NaN) yields the
empty output. -/
theorem c8_witness :
    (process_gpx_to_point_models (fun _ _ => "Z") [(RawVal.nan, RawVal.nan)]
        [] []).1 = [] :=
  c8_all_invalid_empty (fun _ _ => "Z") [(RawVal.nan, RawVal.nan)] [] []
    (by intro p hp; simp at hp; rw [hp]; rfl)

/-! ## CLI orchestrator (coordextract/cli.py) -/

/-- Index of the last occurrence of a character in a list, mirroring
Python str.rfind (none when the character is absent). -/
def rfindIdx : List Char → Char → Option Nat
  | [], _ => none
  | a :: rest, c =>
      match rfindIdx rest c with
      | some j => some (j + 1)
      | none => if a == c then some 0 else none

/-- Embedding of pathlib suffix on a final path component: the extension
from the last dot, provided the dot is neither the first nor the last
character of the name (CPython pathlib: 0 < i < len(name) - 1). -/
def nameSuffix (name : String) : String :=
  let cs := name.toList
  match rfindIdx cs (Char.ofNat 46) with
  | some i => if 0 < i ∧ i < cs.length - 1 then String.mk (cs.drop i) else ""
  | none => ""

/-- Embedding of pathlib stem on a final path component: the name without
its suffix (same dot condition as nameSuffix). -/
def nameStem (name : String) : String :=
  let cs := name.toList
  match rfindIdx cs (Char.ofNat 46) with
  | some i => if 0 < i ∧ i < cs.length - 1 then String.mk (cs.take i)
              else name
  | none => name

/-- Embedding of pathlib.Path as its list of components. -/
structure Path where
  parts : List String
deriving DecidableEq, Repr

/-- Final component of a path (pathlib name). -/
def Path.name (p : Path) : String := (p.parts.getLast? ).getD ""

/-- Pathlib suffix of a path. -/
def Path.suffix (p : Path) : String := nameSuffix p.name

/-- Pathlib stem of a path. -/
def Path.stem (p : Path) : String := nameStem p.name

/-- Path joining with a single component (the / operator of pathlib). -/
def Path.child (p : Path) (s : String) : Path := ⟨p.parts ++ [s]⟩

/-- One entry of a directory listing as produced by Path.iterdir: a path
plus whether the entry is itself a directory. -/
structure DirEntry where
  path : Path
  isDir : Bool
deriving DecidableEq, Repr

/-- Embedding of the selection in process_directory (cli.py line 89):
files = [file for file in inputdir.iterdir() if file.suffix == ".gpx"].
The comprehension filters the direct entries of the directory by suffix
alone. -/
def process_directory_files (entries : List DirEntry) : List DirEntry :=
  entries.filter (fun e => e.path.suffix == ".gpx")

/-- Output path computed for one input file inside process_batch
(cli.py line 75): outputdir / (file.stem + ".json"). -/
def outputPathFor (outputdir : Path) (file : Path) : Path :=
  outputdir.child (file.stem ++ ".json")

/-- The per-file tasks process_batch creates (cli.py lines 73-78), as
(input file, output path) pairs in input order. -/
def process_batch_tasks (files : List Path) (outputdir : Path) :
    List (Path × Path) :=
  files.map (fun f => (f, outputPathFor outputdir f))

/-- Observable effects of process_batch, in program order. -/
inductive Effect where
  | mkdirParents (dir : Path)
  | createTask (file : Path) (out : Path)
  | gatherAwait
deriving DecidableEq, Repr

/-- Embedding of the effect sequence of process_batch (cli.py lines
65-79): outputdir.mkdir(parents=True, exist_ok=True) first, then one
asyncio.create_task per file in input order, then the single await
asyncio.gather over all tasks. -/
def process_batch_trace (files : List Path) (outputdir : Path) :
    List Effect :=
  Effect.mkdirParents outputdir ::
    ((process_batch_tasks files outputdir).map
        (fun j => Effect.createTask j.1 j.2) ++ [Effect.gatherAwait])

/-- One resolved command-line input with the metadata main consults. -/
structure MainInput where
  path : Path
  isDir : Bool
deriving DecidableEq, Repr

/-- What main dispatches to: a batch of per-file jobs, or the single-file
process call with an optional explicit output path. -/
inductive Plan where
  | batch (jobs : List (Path × Path))
  | single (input : Path) (output : Option Path)
deriving DecidableEq, Repr

/-- The per-file jobs of a plan (empty for the single-file call, whose
output handling lives in process rather than process_batch). -/
def planJobs : Plan → List (Path × Path)
  | .batch jobs => jobs
  | .single _ _ => []

/-- Embedding of the dispatch logic of main (cli.py lines 121-143):
exactly one input that is a directory selects the directory branch with
destination output or inputdir / "coordextract_output" and the gpx
selection of process_directory; exactly one non-directory input selects
the single-file process call; otherwise process_batch runs on the inputs
with destination output or Path("."). listingOf supplies iterdir for
directory paths. -/
def mainPlan (inputs : List MainInput) (listingOf : Path → List DirEntry)
    (output : Option Path) : Plan :=
  match inputs with
  | [i] =>
      if i.isDir then
        let inputdir := i.path
        let outputdir := output.getD (inputdir.child "coordextract_output")
        Plan.batch (process_batch_tasks
          ((process_directory_files (listingOf inputdir)).map DirEntry.path)
          outputdir)
      else
        Plan.single i.path output
  | _ =>
      let outputdir := output.getD ⟨["."]⟩
      Plan.batch (process_batch_tasks (inputs.map MainInput.path) outputdir)

/-- C9 counterexample: process_directory selects by suffix alone, so a
subdirectory whose name ends in ".gpx" is selected, contradicting the
claim that all subdirectories are silently ignored. -/
theorem c9_counterexample :
    process_directory_files [⟨⟨["d", "sub.gpx"]⟩, true⟩] =
        [⟨⟨["d", "sub.gpx"]⟩, true⟩] ∧
      (⟨⟨["d", "sub.gpx"]⟩, true⟩ : DirEntry).isDir = true := by
  constructor
  · rfl
  · rfl

/-- C9 (amended): an entry of the directory listing is selected if and
only if it is a direct entry whose pathlib suffix is exactly ".gpx" —
whether it is a file or a subdirectory; all other entries are ignored and
there is no recursion into subdirectories (only direct entries are
considered). -/
theorem c9_selection_by_suffix (entries : List DirEntry) (e : DirEntry) :
    e ∈ process_directory_files entries ↔
      e ∈ entries ∧ e.path.suffix = ".gpx" := by
  simp [process_directory_files, List.mem_filter]

/-- C4: with a single directory input and no explicit output, the batch
jobs of main are exactly one per selected input file (in listing order),
and every job's output path is inputDir / "coordextract_output" /
(inputStem ++ ".json"). -/
theorem c4_dir_default_output (d : Path)
    (listingOf : Path → List DirEntry) :
    (planJobs (mainPlan [⟨d, true⟩] listingOf none)).map Prod.fst =
        (process_directory_files (listingOf d)).map DirEntry.path ∧
      ∀ j ∈ planJobs (mainPlan [⟨d, true⟩] listingOf none),
        j.2 = (d.child "coordextract_output").child (j.1.stem ++ ".json") := by
  constructor
  · simp [mainPlan, planJobs, process_batch_tasks]
  · intro j hj
    simp [mainPlan, planJobs, process_batch_tasks, List.mem_map] at hj
    rcases hj with ⟨f, _, rfl⟩
    rfl

/-- Witness for C4 at a concrete input: a directory "in" holding one file
"a.gpx" gets its output at in/coordextract_output/a.json. -/
theorem c4_witness :
    (⟨["in", "coordextract_output", "a.json"]⟩ : Path) =
      ((⟨["in"]⟩ : Path).child "coordextract_output").child
        ((⟨["in", "a.gpx"]⟩ : Path).stem ++ ".json") :=
  (c4_dir_default_output ⟨["in"]⟩
      (fun _ => [⟨⟨["in", "a.gpx"]⟩, false⟩])).2
    (⟨["in", "a.gpx"]⟩, ⟨["in", "coordextract_output", "a.json"]⟩)
    (by decide)

/-- C10: with two or more input paths and no output destination, main
runs process_batch with destination Path("."), so every job writes
./(inputStem ++ ".json") — not a coordextract_output directory. -/
theorem c10_multi_file_default_cwd (i1 i2 : MainInput)
    (rest : List MainInput) (listingOf : Path → List DirEntry) :
    planJobs (mainPlan (i1 :: i2 :: rest) listingOf none) =
      (i1 :: i2 :: rest).map
        (fun i => (i.path, Path.child ⟨["."]⟩ (i.path.stem ++ ".json"))) := by
  simp [mainPlan, planJobs, process_batch_tasks, outputPathFor]

def isMkdirE : Effect → Bool
  | .mkdirParents _ => true
  | _ => false

def isTaskE : Effect → Bool
  | .createTask _ _ => true
  | _ => false

/-- C7: in the effect trace of process_batch the destination directory is
created exactly once, the creation is the very first effect, and every
task-creation effect occurs strictly later — so no per-file task starts
before the destination directory exists. -/
theorem c7_mkdir_once_before_tasks (files : List Path) (outputdir : Path) :
    ((process_batch_trace files outputdir).countP isMkdirE = 1) ∧
      isMkdirE ((process_batch_trace files outputdir).headD
        Effect.gatherAwait) = true ∧
      ∀ i, isTaskE ((process_batch_trace files outputdir).getD i
          Effect.gatherAwait) = true → 0 < i := by
  refine ⟨?_, rfl, ?_⟩
  · have hz : ((process_batch_tasks files outputdir).map
        (fun j => Effect.createTask j.1 j.2) ++
          [Effect.gatherAwait]).countP isMkdirE = 0 := by
      rw [List.countP_eq_zero]
      intro e he
      rcases List.mem_append.mp he with he | he
      · rcases List.mem_map.mp he with ⟨j, _, rfl⟩
        simp [isMkdirE]
      · simp at he
        rw [he]
        simp [isMkdirE]
    rw [process_batch_trace, List.countP_cons, hz]
    rfl
  · intro i hi
    cases i with
    | zero => simp [process_batch_trace, isTaskE] at hi
    | succ k => exact Nat.succ_pos k

/-- Witness for C7: with one input file the effect at position 1 is a
task creation, and the theorem places it strictly after position 0. -/
theorem c7_witness : 0 < 1 :=
  (c7_mkdir_once_before_tasks [⟨["a.gpx"]⟩] ⟨["out"]⟩).2.2 1 (by decide)

/-! ## Scheduling independence of the batch (claim C5)

Modelled from the spec: process_coords, the single-file pipeline the cli
imports (coordextract package root, not under src), is per spec sections
4.4 and 5 the deterministic composition parse, assemble, serialize,
write: its serialized text is a function of the input file and the
indentation option only, and the cli concurrency flag influences
scheduling, never content.  We abstract the pipeline as pipelineText and
model the two scheduling modes over the jobs process_batch creates:
sequential mode completes the jobs in input order, concurrent mode
completes them in an arbitrary completion order, a permutation of the
task indices. -/

/-- Per-file outputs when the jobs complete in input order (sequential
scheduling): one (output path, serialized text) pair per job. -/
def runSequential (pipelineText : Path → Option ℕ → String)
    (jobs : List (Path × Path)) (indentation : Option ℕ) :
    List (Path × String) :=
  jobs.map (fun j => (j.2, pipelineText j.1 indentation))

/-- Per-file outputs when the jobs complete in the order given by
completionOrder (concurrent scheduling): the same per-job pair, produced
in completion order. -/
def runConcurrent (pipelineText : Path → Option ℕ → String)
    (jobs : List (Path × Path)) (indentation : Option ℕ)
    (completionOrder : List ℕ) : List (Path × String) :=
  (completionOrder.filterMap (fun i => jobs[i]?)).map
    (fun j => (j.2, pipelineText j.1 indentation))

/-- The batch outputs under a given concurrency flag: the flag selects
which scheduling produces the collection of per-file outputs. -/
def batchOutputs (pipelineText : Path → Option ℕ → String)
    (jobs : List (Path × Path)) (indentation : Option ℕ)
    (concurrency : Bool) (completionOrder : List ℕ) :
    List (Path × String) :=
  if concurrency then
    runConcurrent pipelineText jobs indentation completionOrder
  else
    runSequential pipelineText jobs indentation

theorem filterMap_getElem_range {α : Type} (l : List α) :
    (List.range l.length).filterMap (fun i => l[i]?) = l := by
  induction l with
  | nil => simp
  | cons a xs ih =>
      rw [List.length_cons, List.range_succ_eq_map, List.filterMap_cons]
      have h0 : (a :: xs)[0]? = some a := by simp
      rw [h0, List.filterMap_map]
      have hc : ((fun i => (a :: xs)[i]?) ∘ Nat.succ) =
          fun i => xs[i]? := by
        funext i
        simp
      rw [hc, ih]

/-- C5: for any completion order that is a permutation of the task
indices, the multiset of (output path, content) pairs produced with the
concurrency flag enabled is the same as with the flag disabled — the set
of per-file JSON outputs does not depend on the flag. -/
theorem c5_scheduling_independence (pipelineText : Path → Option ℕ → String)
    (jobs : List (Path × Path)) (indentation : Option ℕ)
    (completionOrder : List ℕ)
    (h : completionOrder.Perm (List.range jobs.length)) :
    (batchOutputs pipelineText jobs indentation true completionOrder).Perm
      (batchOutputs pipelineText jobs indentation false completionOrder) := by
  have hjobs : (completionOrder.filterMap (fun i => jobs[i]?)).Perm jobs := by
    have := h.filterMap (fun i => jobs[i]?)
    rw [filterMap_getElem_range] at this
    exact this
  simpa [batchOutputs, runConcurrent, runSequential] using
    hjobs.map (fun j => (j.2, pipelineText j.1 indentation))

/-- Witness for C5: two concrete jobs completing in reversed order yield
the same collection of outputs as sequential order. -/
theorem c5_witness :
    (batchOutputs (fun _ _ => "out")
        [(⟨["a.gpx"]⟩, ⟨["a.json"]⟩), (⟨["b.gpx"]⟩, ⟨["b.json"]⟩)]
        none true [1, 0]).Perm
      (batchOutputs (fun _ _ => "out")
        [(⟨["a.gpx"]⟩, ⟨["a.json"]⟩), (⟨["b.gpx"]⟩, ⟨["b.json"]⟩)]
        none false [1, 0]) :=
  c5_scheduling_independence (fun _ _ => "out")
    [(⟨["a.gpx"]⟩, ⟨["a.json"]⟩), (⟨["b.gpx"]⟩, ⟨["b.json"]⟩)]
    none [1, 0] (by decide)

end Coordextract
